import Mathlib

/-!
# Verification of the glean event-metric wrapper and its core

Shallow embedding of `glean/metrics/event.py` (the developer-facing
`EventMetricType` wrapper) together with a model of the native event-metric
core it delegates to.  The wrapper definitions follow the Python source
line by line; the core definitions are modelled from the specification of
the native core (validation, error accounting, event storage), which is not
part of the Python sources.
-/

set_option autoImplicit false

/-- A Python runtime value as far as the wrapper cares: keys produced by
`key_to_str` are either strings or (for enum keys) whatever value the enum
declares — e.g. an `Int`. -/
inductive PyVal where
  | str (s : String)
  | int (n : Int)
  deriving DecidableEq, Repr

/-- A key of a Python extras dict passed to `record`: an `enum.Enum` member
(carrying its declared `.value`), a plain `str`, or any other object
(carrying the result of Python's `str()` conversion on it). -/
inductive PyKey where
  | enumKey (value : PyVal)
  | strKey (s : String)
  | otherKey (strRepr : String)
  deriving DecidableEq, Repr

/-- The helper `key_to_str` inside `EventMetricType.record`:
`key.value` for an `enum.Enum` member, `str(key)` otherwise
(for a `str` key, `str` is the identity). -/
def key_to_str : PyKey → PyVal
  | .enumKey v => v
  | .strKey s => .str s
  | .otherKey r => .str r

/-- The class `EventExtras`: an object convertible into key-value pairs of event
extras via `to_ffi_extra`.  We model an instance by the mapping its
`to_ffi_extra` returns. -/
structure EventExtras where
  to_ffi_extra : List (String × String)
  deriving DecidableEq, Repr

/-- The `extra` argument accepted by `EventMetricType.record`: `None`,
a dict, an `EventExtras` instance, or any other object (which the code's
`else` branch also catches). -/
inductive ExtraArg where
  | none
  | dict (pairs : List (PyKey × String))
  | extras (e : EventExtras)
  | other (v : PyVal)
  deriving DecidableEq, Repr

/-- One insertion step of a Python dict build: an existing binding of the
same key is updated in place (keeping its position), otherwise the pair is
appended. -/
def dictInsert (m : List (PyVal × String)) (k : PyVal) (v : String) :
    List (PyVal × String) :=
  if m.any (fun p => decide (p.1 = k)) then
    m.map (fun p => if p.1 = k then (k, v) else p)
  else m ++ [(k, v)]

/-- The dict comprehension
`{key_to_str(k): v for k, v in extra.items()}` of `record`, with Python
dict semantics (later duplicates of a coerced key override earlier ones). -/
def key_to_str_dict (pairs : List (PyKey × String)) : List (PyVal × String) :=
  pairs.foldl (fun acc p => dictInsert acc (key_to_str p.1) p.2) []

/-- The argument normalization performed by `EventMetricType.record` before
calling into the core: an `EventExtras` is converted through
`to_ffi_extra`, a dict through the `key_to_str` comprehension, and
everything else (including `None`) becomes the empty dict. -/
def normalize_extra : ExtraArg → List (PyVal × String)
  | .extras e => e.to_ffi_extra.map (fun p => (PyVal.str p.1, p.2))
  | .dict pairs => key_to_str_dict pairs
  | _ => []

/-- Modelled from the spec: the `ErrorType` taxonomy imported from
`glean.testing` (not under the Python sources) — invalid value, invalid
extra key, invalid overflow (spec §7). -/
inductive ErrorType where
  | invalidValue
  | invalidExtraKey
  | invalidOverflow
  deriving DecidableEq, Repr

/-- Modelled from the spec: the maximum length of an extra value
("The maximum length for values is 100"). -/
def MAX_EXTRA_VALUE_LENGTH : Nat := 100

/-- Modelled from the spec: the configured per-ping maximum number of
stored events (spec §3 Event Store); the spec fixes no numeric value, so we
pick one large enough for all scenarios it describes. -/
def MAX_EVENTS_PER_PING : Nat := 500

/-- Modelled from the spec: `CommonMetricData`, the identity and
configuration of a metric (category, name, pings it is sent in, disabled
flag), imported from the FFI layer which is not under the Python sources. -/
structure CommonMetricData where
  category : String
  name : String
  sendInPings : List String
  disabled : Bool
  deriving DecidableEq, Repr

/-- Modelled from the spec: `RecordedEvent` as returned across the FFI
boundary — category, name, ping-relative timestamp, and an extras mapping
which the core may leave absent (`None`) when the event has no extras. -/
structure RecordedEvent where
  category : String
  name : String
  timestamp : Nat
  extra : Option (List (String × String))
  deriving DecidableEq, Repr

/-- Modelled from the spec: the generic canonical-string conversion the
core validator applies to a non-string key before allow-list lookup
(spec §4.1). -/
def pyValToString : PyVal → String
  | .str s => s
  | .int n => toString n

/-- Modelled from the spec: the sanitized mapping produced by the
Extra-Key Validator (spec §4.1).  A pair whose (coerced) key is not in the
allow-list is dropped; a value longer than the maximum is truncated and the
pair kept. -/
def sanitizeExtras (allowed : List String) :
    List (PyVal × String) → List (String × String)
  | [] => []
  | (k, v) :: rest =>
    if pyValToString k ∈ allowed then
      if MAX_EXTRA_VALUE_LENGTH < v.length then
        (pyValToString k, v.take MAX_EXTRA_VALUE_LENGTH) :: sanitizeExtras allowed rest
      else (pyValToString k, v) :: sanitizeExtras allowed rest
    else sanitizeExtras allowed rest

/-- Modelled from the spec: the validation faults emitted by the Extra-Key
Validator (spec §4.1) — `invalidExtraKey` for each dropped pair,
`invalidOverflow` for each truncated value. -/
def extrasFaults (allowed : List String) :
    List (PyVal × String) → List ErrorType
  | [] => []
  | (k, v) :: rest =>
    if pyValToString k ∈ allowed then
      if MAX_EXTRA_VALUE_LENGTH < v.length then
        ErrorType.invalidOverflow :: extrasFaults allowed rest
      else extrasFaults allowed rest
    else ErrorType.invalidExtraKey :: extrasFaults allowed rest

/-- Modelled from the spec: the Extra-Key Validator (spec §4.1), returning
the sanitized mapping together with the list of validation faults. -/
def validateExtras (allowed : List String) (l : List (PyVal × String)) :
    List (String × String) × List ErrorType :=
  (sanitizeExtras allowed l, extrasFaults allowed l)

/-- Modelled from the spec: the native `EventMetric` core state — metric
configuration, allow-list, the ordered event store (tagged by ping name)
and the error log (tagged by ping name). -/
structure EventMetric where
  cmd : CommonMetricData
  allowedExtraKeys : List String
  events : List (String × RecordedEvent)
  errors : List (String × ErrorType)
  deriving DecidableEq, Repr

/-- Modelled from the spec: `EventMetric(common_metric_data,
allowed_extra_keys)` — a fresh core with empty store and error log. -/
def EventMetric.new (cmd : CommonMetricData) (allowed : List String) :
    EventMetric :=
  ⟨cmd, allowed, [], []⟩

/-- The ordered sequence of events stored for one ping. -/
def EventMetric.eventsFor (m : EventMetric) (p : String) :
    List RecordedEvent :=
  (m.events.filter (fun e => decide (e.1 = p))).map Prod.snd

/-- The error counter for one (ping, error-kind) pair, read off the log. -/
def EventMetric.errorCountFor (m : EventMetric) (p : String)
    (et : ErrorType) : Nat :=
  (m.errors.filter (fun e => decide (e.1 = p) && decide (e.2 = et))).length

/-- Modelled from the spec: an absent ping name defaults to the first value
in `send_in_pings`. -/
def EventMetric.resolvePing (m : EventMetric) (ping : Option String) :
    String :=
  ping.getD (m.cmd.sendInPings.headD "")

/-- Modelled from the spec: the core stores no extras object for an event
whose sanitized extras are empty (the wrapper normalizes that absence back
to an empty mapping at read time). -/
def extraOptOf (s : List (String × String)) :
    Option (List (String × String)) :=
  if s.isEmpty then none else some s

/-- Modelled from the spec: `Event Store.append` for one ping — assigns the
next ping-relative monotonic timestamp and appends if capacity allows, else
records an `invalidOverflow` error instead (spec §4.3). -/
def EventMetric.appendInPing (eo : Option (List (String × String)))
    (st : EventMetric) (p : String) : EventMetric :=
  if (st.eventsFor p).length < MAX_EVENTS_PER_PING then
    { st with events := st.events ++
        [(p, ⟨st.cmd.category, st.cmd.name, (st.eventsFor p).length, eo⟩)] }
  else
    { st with errors := st.errors ++ [(p, ErrorType.invalidOverflow)] }

/-- Modelled from the spec: validation faults are recorded, as error-log
entries, for every ping the metric is sent in (spec §4.2). -/
def faultLog (pings : List String) (fs : List ErrorType) :
    List (String × ErrorType) :=
  pings.flatMap (fun p => fs.map (fun f => (p, f)))

/-- Modelled from the spec: the core `record` (spec §4.4).  A disabled
metric is a silent no-op; otherwise the extras are validated, each
validation fault is recorded for every ping the metric is sent in, and the
event is appended to the store of each such ping. -/
def EventMetric.record (m : EventMetric) (extras : List (PyVal × String)) :
    EventMetric :=
  if m.cmd.disabled then m
  else
    m.cmd.sendInPings.foldl
      (EventMetric.appendInPing (extraOptOf (validateExtras m.allowedExtraKeys extras).1))
      { m with errors := m.errors ++
          faultLog m.cmd.sendInPings (validateExtras m.allowedExtraKeys extras).2 }

/-- Modelled from the spec: the core `record` never raises to the caller
(spec §4.4), hence its fallible-typed form always succeeds. -/
def EventMetric.recordE (m : EventMetric) (extras : List (PyVal × String)) :
    Except String EventMetric :=
  Except.ok (m.record extras)

/-- Modelled from the spec: the core `test_get_value` — a non-destructive
snapshot of the store for the resolved ping, absent when nothing has been
recorded for that ping. -/
def EventMetric.test_get_value (m : EventMetric) (ping : Option String) :
    Option (List RecordedEvent) :=
  if (m.eventsFor (m.resolvePing ping)).isEmpty then none
  else some (m.eventsFor (m.resolvePing ping))

/-- Modelled from the spec: the core `test_get_num_recorded_errors` —
the counter for the given error kind at the resolved ping. -/
def EventMetric.test_get_num_recorded_errors (m : EventMetric)
    (et : ErrorType) (ping : Option String) : Nat :=
  m.errorCountFor (m.resolvePing ping) et

/-- The wrapper class `EventMetricType`, holding its `_inner` core. -/
structure EventMetricType where
  _inner : EventMetric
  deriving DecidableEq, Repr

/-- The constructor `EventMetricType.__init__`: wraps a freshly constructed core. -/
def EventMetricType.init (common_metric_data : CommonMetricData)
    (allowed_extra_keys : List String) : EventMetricType :=
  ⟨EventMetric.new common_metric_data allowed_extra_keys⟩

/-- The method `EventMetricType.record`: normalizes the `extra` argument and calls
`self._inner.record`. -/
def EventMetricType.record (m : EventMetricType) (extra : ExtraArg) :
    EventMetricType :=
  ⟨m._inner.record (normalize_extra extra)⟩

/-- The method `EventMetricType.record` in a fallible type, to express that no path of
the method raises (the normalization is total Python code with no `raise`,
and the core call never raises per the spec). -/
def EventMetricType.recordE (m : EventMetricType) (extra : ExtraArg) :
    Except String EventMetricType :=
  (m._inner.recordE (normalize_extra extra)).map (fun inner => ⟨inner⟩)

/-- The per-event normalization of `EventMetricType.test_get_value`:
`if recording.extra is None: recording.extra = {}`. -/
def normalizeRead (r : RecordedEvent) : RecordedEvent :=
  match r.extra with
  | none => { r with extra := some [] }
  | some _ => r

/-- The method `EventMetricType.test_get_value`: takes the core snapshot and, when it
is truthy (`if recordings:`), replaces each absent extras field by the
empty mapping. -/
def EventMetricType.test_get_value (m : EventMetricType)
    (ping : Option String) : Option (List RecordedEvent) :=
  match m._inner.test_get_value ping with
  | none => none
  | some recordings =>
    if recordings.isEmpty then some recordings
    else some (recordings.map normalizeRead)

/-- The method `EventMetricType.test_get_num_recorded_errors`: delegates to the
core. -/
def EventMetricType.test_get_num_recorded_errors (m : EventMetricType)
    (et : ErrorType) (ping : Option String) : Nat :=
  m._inner.test_get_num_recorded_errors et ping

/-- The method `EventMetricType.test_get_value` with the state threaded explicitly.
The FFI returns `RecordedEvent` values by copy (spec §6: plain-old-data
crossing the boundary by value, no shared mutable state) and the core read
is non-destructive (spec §4.3), so the wrapper's in-place extras
normalization cannot reach the store and the state passes through
unchanged. -/
def EventMetricType.testGetValueS (m : EventMetricType)
    (ping : Option String) :
    Option (List RecordedEvent) × EventMetricType :=
  (m.test_get_value ping, m)

/-- The number of faults of one kind in a fault list. -/
def countKind (fs : List ErrorType) (et : ErrorType) : Nat :=
  (fs.filter (fun f => decide (f = et))).length

lemma countKind_cons (f : ErrorType) (fs : List ErrorType) (et : ErrorType) :
    countKind (f :: fs) et = countKind fs et + (if f = et then 1 else 0) := by
  by_cases h : f = et <;> simp [countKind, List.filter_cons, h]

lemma sanitizeExtras_keys (allowed : List String) :
    ∀ (l : List (PyVal × String)) (kv : String × String),
      kv ∈ sanitizeExtras allowed l → kv.1 ∈ allowed := by
  intro l
  induction l with
  | nil => intro kv h; simp [sanitizeExtras] at h
  | cons hd tl ih =>
    obtain ⟨k, v⟩ := hd
    intro kv h
    by_cases hk : pyValToString k ∈ allowed
    · by_cases hv : MAX_EXTRA_VALUE_LENGTH < v.length
      · rw [sanitizeExtras, if_pos hk, if_pos hv] at h
        rcases List.mem_cons.1 h with h1 | h1
        · rw [h1]; exact hk
        · exact ih kv h1
      · rw [sanitizeExtras, if_pos hk, if_neg hv] at h
        rcases List.mem_cons.1 h with h1 | h1
        · rw [h1]; exact hk
        · exact ih kv h1
    · rw [sanitizeExtras, if_neg hk] at h
      exact ih kv h

lemma sanitizeExtras_mem_long (allowed : List String)
    (l : List (PyVal × String)) (kv : PyVal × String) (hm : kv ∈ l)
    (hk : pyValToString kv.1 ∈ allowed)
    (hv : MAX_EXTRA_VALUE_LENGTH < kv.2.length) :
    (pyValToString kv.1, kv.2.take MAX_EXTRA_VALUE_LENGTH)
      ∈ sanitizeExtras allowed l := by
  induction l with
  | nil => simp at hm
  | cons hd tl ih =>
    obtain ⟨k, v⟩ := hd
    rcases List.mem_cons.1 hm with h1 | h1
    · subst h1
      rw [sanitizeExtras, if_pos hk, if_pos hv]
      exact List.mem_cons_self _ _
    · have htl := ih h1
      by_cases hk' : pyValToString k ∈ allowed
      · by_cases hv' : MAX_EXTRA_VALUE_LENGTH < v.length
        · rw [sanitizeExtras, if_pos hk', if_pos hv']
          exact List.mem_cons_of_mem _ htl
        · rw [sanitizeExtras, if_pos hk', if_neg hv']
          exact List.mem_cons_of_mem _ htl
      · rw [sanitizeExtras, if_neg hk']
        exact htl

lemma extrasFaults_count_key (allowed : List String)
    (l : List (PyVal × String)) :
    countKind (extrasFaults allowed l) ErrorType.invalidExtraKey
      = (l.filter
          (fun kv => decide (pyValToString kv.1 ∉ allowed))).length := by
  induction l with
  | nil => simp [extrasFaults, countKind]
  | cons hd tl ih =>
    obtain ⟨k, v⟩ := hd
    by_cases hk : pyValToString k ∈ allowed
    · by_cases hv : MAX_EXTRA_VALUE_LENGTH < v.length <;>
        simp [extrasFaults, hk, hv, countKind_cons, ih, List.filter_cons]
    · simp [extrasFaults, hk, countKind_cons, ih, List.filter_cons]

lemma extrasFaults_count_overflow (allowed : List String)
    (l : List (PyVal × String)) :
    countKind (extrasFaults allowed l) ErrorType.invalidOverflow
      = (l.filter (fun kv => decide (pyValToString kv.1 ∈ allowed)
          && decide (MAX_EXTRA_VALUE_LENGTH < kv.2.length))).length := by
  induction l with
  | nil => simp [extrasFaults, countKind]
  | cons hd tl ih =>
    obtain ⟨k, v⟩ := hd
    by_cases hk : pyValToString k ∈ allowed
    · by_cases hv : MAX_EXTRA_VALUE_LENGTH < v.length <;>
        simp [extrasFaults, hk, hv, countKind_cons, ih, List.filter_cons]
    · simp [extrasFaults, hk, countKind_cons, ih, List.filter_cons]

lemma isEmpty_false_of_ne_nil {α : Type} {l : List α} (h : l ≠ []) :
    l.isEmpty = false := by
  cases l with
  | nil => exact absurd rfl h
  | cons a t => rfl

lemma appendInPing_cmd (eo : Option (List (String × String)))
    (st : EventMetric) (q : String) :
    (EventMetric.appendInPing eo st q).cmd = st.cmd := by
  unfold EventMetric.appendInPing
  split <;> rfl

lemma appendInPing_allowed (eo : Option (List (String × String)))
    (st : EventMetric) (q : String) :
    (EventMetric.appendInPing eo st q).allowedExtraKeys
      = st.allowedExtraKeys := by
  unfold EventMetric.appendInPing
  split <;> rfl

lemma appendInPing_eventsFor_ne (eo : Option (List (String × String)))
    (st : EventMetric) (q p : String) (h : q ≠ p) :
    (EventMetric.appendInPing eo st q).eventsFor p = st.eventsFor p := by
  unfold EventMetric.appendInPing
  split
  · simp [EventMetric.eventsFor, List.filter_append, h]
  · rfl

lemma appendInPing_eventsFor_self (eo : Option (List (String × String)))
    (st : EventMetric) (p : String)
    (hcap : (st.eventsFor p).length < MAX_EVENTS_PER_PING) :
    (EventMetric.appendInPing eo st p).eventsFor p
      = st.eventsFor p
        ++ [⟨st.cmd.category, st.cmd.name, (st.eventsFor p).length, eo⟩] := by
  unfold EventMetric.appendInPing
  rw [if_pos hcap]
  simp [EventMetric.eventsFor, List.filter_append]

lemma appendInPing_errors_of_lt (eo : Option (List (String × String)))
    (st : EventMetric) (p : String)
    (hcap : (st.eventsFor p).length < MAX_EVENTS_PER_PING) :
    (EventMetric.appendInPing eo st p).errors = st.errors := by
  unfold EventMetric.appendInPing
  rw [if_pos hcap]

lemma errorCountFor_eq_of_errors_eq {a b : EventMetric}
    (h : a.errors = b.errors) (p : String) (et : ErrorType) :
    a.errorCountFor p et = b.errorCountFor p et := by
  unfold EventMetric.errorCountFor
  rw [h]

lemma appendInPing_errorCountFor_self_of_lt
    (eo : Option (List (String × String))) (st : EventMetric) (p : String)
    (et : ErrorType)
    (hcap : (st.eventsFor p).length < MAX_EVENTS_PER_PING) :
    (EventMetric.appendInPing eo st p).errorCountFor p et
      = st.errorCountFor p et :=
  errorCountFor_eq_of_errors_eq (appendInPing_errors_of_lt eo st p hcap) p et

lemma appendInPing_errorCountFor_ne (eo : Option (List (String × String)))
    (st : EventMetric) (q p : String) (et : ErrorType) (h : q ≠ p) :
    (EventMetric.appendInPing eo st q).errorCountFor p et
      = st.errorCountFor p et := by
  unfold EventMetric.appendInPing
  split
  · rfl
  · simp [EventMetric.errorCountFor, List.filter_append, h]

lemma appendInPing_errors_append (eo : Option (List (String × String)))
    (st : EventMetric) (q : String) :
    ∃ tail, (EventMetric.appendInPing eo st q).errors = st.errors ++ tail := by
  unfold EventMetric.appendInPing
  split
  · exact ⟨[], by simp⟩
  · exact ⟨[(q, ErrorType.invalidOverflow)], rfl⟩

lemma foldl_appendInPing_cmd (eo : Option (List (String × String))) :
    ∀ (qs : List String) (st : EventMetric),
      ((qs.foldl (EventMetric.appendInPing eo) st)).cmd = st.cmd := by
  intro qs
  induction qs with
  | nil => intro st; rfl
  | cons q tl ih =>
    intro st
    rw [List.foldl_cons, ih, appendInPing_cmd]

lemma foldl_appendInPing_allowed (eo : Option (List (String × String))) :
    ∀ (qs : List String) (st : EventMetric),
      ((qs.foldl (EventMetric.appendInPing eo) st)).allowedExtraKeys
        = st.allowedExtraKeys := by
  intro qs
  induction qs with
  | nil => intro st; rfl
  | cons q tl ih =>
    intro st
    rw [List.foldl_cons, ih, appendInPing_allowed]

lemma foldl_appendInPing_eventsFor (eo : Option (List (String × String)))
    (p : String) :
    ∀ (qs : List String) (st : EventMetric), p ∉ qs →
      ((qs.foldl (EventMetric.appendInPing eo) st)).eventsFor p
        = st.eventsFor p := by
  intro qs
  induction qs with
  | nil => intro st _; rfl
  | cons q tl ih =>
    intro st h
    have h1 : ¬p = q ∧ p ∉ tl := by simpa [List.mem_cons, not_or] using h
    rw [List.foldl_cons, ih _ h1.2,
      appendInPing_eventsFor_ne eo st q p (fun he => h1.1 he.symm)]

lemma foldl_appendInPing_errorCountFor (eo : Option (List (String × String)))
    (p : String) (et : ErrorType) :
    ∀ (qs : List String) (st : EventMetric), p ∉ qs →
      ((qs.foldl (EventMetric.appendInPing eo) st)).errorCountFor p et
        = st.errorCountFor p et := by
  intro qs
  induction qs with
  | nil => intro st _; rfl
  | cons q tl ih =>
    intro st h
    have h1 : ¬p = q ∧ p ∉ tl := by simpa [List.mem_cons, not_or] using h
    rw [List.foldl_cons, ih _ h1.2,
      appendInPing_errorCountFor_ne eo st q p et (fun he => h1.1 he.symm)]

lemma foldl_appendInPing_errors_append (eo : Option (List (String × String))) :
    ∀ (qs : List String) (st : EventMetric),
      ∃ tail, ((qs.foldl (EventMetric.appendInPing eo) st)).errors
        = st.errors ++ tail := by
  intro qs
  induction qs with
  | nil => intro st; exact ⟨[], by simp⟩
  | cons q tl ih =>
    intro st
    obtain ⟨t1, h1⟩ := appendInPing_errors_append eo st q
    obtain ⟨t2, h2⟩ := ih (EventMetric.appendInPing eo st q)
    exact ⟨t1 ++ t2, by rw [List.foldl_cons, h2, h1, List.append_assoc]⟩

lemma faultLog_filter_of_not_mem (fs : List ErrorType) (p : String)
    (et : ErrorType) :
    ∀ qs : List String, p ∉ qs →
      (faultLog qs fs).filter
        (fun e => decide (e.1 = p) && decide (e.2 = et)) = [] := by
  intro qs
  induction qs with
  | nil => intro _; rfl
  | cons q tl ih =>
    intro h
    have h1 : ¬p = q ∧ p ∉ tl := by simpa [List.mem_cons, not_or] using h
    rw [faultLog, List.flatMap_cons, List.filter_append]
    rw [show (tl.flatMap fun p => fs.map fun f => (p, f)) = faultLog tl fs from rfl]
    rw [ih h1.2, List.filter_map]
    have : ((fun (e : String × ErrorType) => decide (e.1 = p) && decide (e.2 = et))
        ∘ fun f => (q, f)) = fun f => decide (q = p) && decide (f = et) := rfl
    rw [this]
    have hq : decide (q = p) = false := by
      have : ¬q = p := fun he => h1.1 he.symm
      simp [this]
    simp [hq]

lemma faultLog_filter_cons_self (fs : List ErrorType) (p : String)
    (et : ErrorType) (tl : List String) (h : p ∉ tl) :
    ((faultLog (p :: tl) fs).filter
        (fun e => decide (e.1 = p) && decide (e.2 = et))).length
      = countKind fs et := by
  rw [faultLog, List.flatMap_cons, List.filter_append]
  rw [show (tl.flatMap fun p => fs.map fun f => (p, f)) = faultLog tl fs from rfl]
  rw [faultLog_filter_of_not_mem fs p et tl h, List.filter_map]
  have : ((fun (e : String × ErrorType) => decide (e.1 = p) && decide (e.2 = et))
      ∘ fun f => (p, f)) = fun f => decide (p = p) && decide (f = et) := rfl
  rw [this]
  simp [countKind]

lemma record_cmd (m : EventMetric) (extras : List (PyVal × String)) :
    (m.record extras).cmd = m.cmd := by
  unfold EventMetric.record
  split
  · rfl
  · rw [foldl_appendInPing_cmd]

lemma record_allowed (m : EventMetric) (extras : List (PyVal × String)) :
    (m.record extras).allowedExtraKeys = m.allowedExtraKeys := by
  unfold EventMetric.record
  split
  · rfl
  · rw [foldl_appendInPing_allowed]

lemma record_eventsFor_main (m : EventMetric) (extras : List (PyVal × String))
    (p : String) (rest : List String)
    (hping : m.cmd.sendInPings = p :: rest) (hnd : p ∉ rest)
    (hen : m.cmd.disabled = false)
    (hcap : (m.eventsFor p).length < MAX_EVENTS_PER_PING) :
    (m.record extras).eventsFor p
      = m.eventsFor p ++ [⟨m.cmd.category, m.cmd.name, (m.eventsFor p).length,
          extraOptOf (validateExtras m.allowedExtraKeys extras).1⟩] := by
  unfold EventMetric.record
  rw [if_neg (by simp [hen]), hping, List.foldl_cons,
    foldl_appendInPing_eventsFor _ _ _ _ hnd]
  exact appendInPing_eventsFor_self _ _ _ hcap

lemma record_errorCountFor_main (m : EventMetric)
    (extras : List (PyVal × String)) (p : String) (rest : List String)
    (hping : m.cmd.sendInPings = p :: rest) (hnd : p ∉ rest)
    (hen : m.cmd.disabled = false)
    (hcap : (m.eventsFor p).length < MAX_EVENTS_PER_PING) (et : ErrorType) :
    (m.record extras).errorCountFor p et
      = m.errorCountFor p et
        + countKind (validateExtras m.allowedExtraKeys extras).2 et := by
  unfold EventMetric.record
  rw [if_neg (by simp [hen]), hping, List.foldl_cons,
    foldl_appendInPing_errorCountFor _ _ _ _ _ hnd,
    appendInPing_errorCountFor_self_of_lt]
  · show ((m.errors ++ faultLog (p :: rest)
        (validateExtras m.allowedExtraKeys extras).2).filter
        (fun e => decide (e.1 = p) && decide (e.2 = et))).length
      = m.errorCountFor p et
        + countKind (validateExtras m.allowedExtraKeys extras).2 et
    rw [List.filter_append, List.length_append,
      faultLog_filter_cons_self _ _ _ _ hnd]
    rfl
  · exact hcap

lemma record_errors_append (m : EventMetric)
    (extras : List (PyVal × String)) :
    ∃ tail, (m.record extras).errors = m.errors ++ tail := by
  unfold EventMetric.record
  split
  · exact ⟨[], by simp⟩
  · obtain ⟨t, ht⟩ := foldl_appendInPing_errors_append
      (extraOptOf (validateExtras m.allowedExtraKeys extras).1)
      m.cmd.sendInPings
      { m with errors := m.errors ++
          faultLog m.cmd.sendInPings (validateExtras m.allowedExtraKeys extras).2 }
    exact ⟨faultLog m.cmd.sendInPings (validateExtras m.allowedExtraKeys extras).2 ++ t,
      by rw [ht, List.append_assoc]⟩

lemma test_get_value_none_of_empty (m : EventMetricType)
    (ping : Option String)
    (h : m._inner.eventsFor (m._inner.resolvePing ping) = []) :
    m.test_get_value ping = none := by
  unfold EventMetricType.test_get_value EventMetric.test_get_value
  rw [h]
  rfl

lemma test_get_value_of_ne_nil (m : EventMetricType) (ping : Option String)
    (hne : m._inner.eventsFor (m._inner.resolvePing ping) ≠ []) :
    m.test_get_value ping
      = some ((m._inner.eventsFor (m._inner.resolvePing ping)).map
          normalizeRead) := by
  unfold EventMetricType.test_get_value EventMetric.test_get_value
  rw [isEmpty_false_of_ne_nil hne]
  simp only [Bool.false_eq_true, if_false]
  rw [isEmpty_false_of_ne_nil hne]
  rfl

lemma record_resolvePing (m : EventMetric) (extras : List (PyVal × String))
    (pn : Option String) :
    (m.record extras).resolvePing pn = m.resolvePing pn := by
  unfold EventMetric.resolvePing
  rw [record_cmd]

lemma normalizeRead_extra_isSome (r : RecordedEvent) :
    (normalizeRead r).extra.isSome = true := by
  obtain ⟨rc, rn, rt, re⟩ := r
  cases re <;> rfl

/-- Concrete enabled metric used by the witnesses below. -/
def cmdW : CommonMetricData := ⟨"cat", "click", ["events"], false⟩

/-- Concrete enabled wrapper metric used by the witnesses below. -/
def mW : EventMetricType := EventMetricType.init cmdW ["reason"]

/-- The metric `mW` after one `record(None)`. -/
def mW1 : EventMetricType := mW.record ExtraArg.none

/-- C1: for every extras argument (`None`, a dict, an `EventExtras`, or any
other object), `record` returns normally — its fallible-typed embedding
always yields `Except.ok` of the recorded state — and every fault detected
during recording is expressed only as appended error-log entries (so the
counters read by `test_get_num_recorded_errors` never decrease), never as
an exception to the caller. -/
theorem record_never_raises (m : EventMetricType) (extra : ExtraArg) :
    m.recordE extra = Except.ok (m.record extra)
    ∧ (∃ tail, (m.record extra)._inner.errors = m._inner.errors ++ tail)
    ∧ ∀ (et : ErrorType) (pn : Option String),
        m.test_get_num_recorded_errors et pn
          ≤ (m.record extra).test_get_num_recorded_errors et pn := by
  refine ⟨rfl, record_errors_append _ _, ?_⟩
  intro et pn
  unfold EventMetricType.test_get_num_recorded_errors
    EventMetric.test_get_num_recorded_errors
  rw [show (m.record extra)._inner
      = m._inner.record (normalize_extra extra) from rfl]
  rw [record_resolvePing]
  obtain ⟨tail, ht⟩ := record_errors_append m._inner (normalize_extra extra)
  unfold EventMetric.errorCountFor
  rw [ht, List.filter_append, List.length_append]
  exact Nat.le_add_right _ _

/-- C4: `test_get_value` returns an absent result when nothing has been
recorded for the resolved ping, and every event of a returned sequence
carries a present (non-null) extras mapping. -/
theorem test_get_value_total (m : EventMetricType) (ping : Option String) :
    (m._inner.eventsFor (m._inner.resolvePing ping) = [] →
      m.test_get_value ping = none)
    ∧ ∀ evs, m.test_get_value ping = some evs →
        ∀ ev ∈ evs, ev.extra.isSome = true := by
  constructor
  · exact test_get_value_none_of_empty m ping
  · intro evs hs ev hev
    by_cases hne : m._inner.eventsFor (m._inner.resolvePing ping) = []
    · rw [test_get_value_none_of_empty m ping hne] at hs
      cases hs
    · rw [test_get_value_of_ne_nil m ping hne] at hs
      have h1 := Option.some.inj hs
      rw [← h1] at hev
      obtain ⟨r, _, hr⟩ := List.mem_map.1 hev
      rw [← hr]
      exact normalizeRead_extra_isSome r

/-- C4 witness: on a fresh metric the read is absent, and the single event
stored by `record(None)` is returned with a present extras mapping. -/
theorem test_get_value_total_witness :
    mW.test_get_value Option.none = none
    ∧ (⟨"cat", "click", 0, some []⟩ : RecordedEvent).extra.isSome = true :=
  ⟨(test_get_value_total mW Option.none).1 rfl,
   (test_get_value_total mW1 Option.none).2 [⟨"cat", "click", 0, some []⟩]
     (by decide) ⟨"cat", "click", 0, some []⟩ (by decide)⟩

/-- C8: recording on a disabled metric is a silent no-op: the state is
unchanged, `test_get_value` stays absent when nothing is stored, and no
error counter changes. -/
theorem disabled_record_noop (m : EventMetricType) (extra : ExtraArg)
    (hdis : m._inner.cmd.disabled = true) :
    m.record extra = m
    ∧ (∀ ping, m._inner.eventsFor (m._inner.resolvePing ping) = [] →
        (m.record extra).test_get_value ping = none)
    ∧ ∀ (et : ErrorType) (pn : Option String),
        (m.record extra).test_get_num_recorded_errors et pn
          = m.test_get_num_recorded_errors et pn := by
  have h0 : m.record extra = m := by
    unfold EventMetricType.record EventMetric.record
    rw [if_pos hdis]
  refine ⟨h0, ?_, ?_⟩
  · intro ping h
    rw [h0]
    exact test_get_value_none_of_empty m ping h
  · intro et pn
    rw [h0]

/-- Concrete disabled metric for the C8 witness. -/
def mD : EventMetricType :=
  EventMetricType.init ⟨"cat", "click", ["events"], true⟩ ["reason"]

/-- C8 witness: a concrete record call on a disabled metric stores nothing
and changes no counter. -/
theorem disabled_record_noop_witness :
    mD.record (ExtraArg.dict [(PyKey.strKey "reason", "a")]) = mD
    ∧ (mD.record (ExtraArg.dict [(PyKey.strKey "reason", "a")])).test_get_value
        Option.none = none
    ∧ (mD.record (ExtraArg.dict
          [(PyKey.strKey "reason", "a")])).test_get_num_recorded_errors
        ErrorType.invalidExtraKey Option.none
      = mD.test_get_num_recorded_errors ErrorType.invalidExtraKey Option.none :=
  ⟨(disabled_record_noop mD _ rfl).1,
   (disabled_record_noop mD _ rfl).2.1 Option.none rfl,
   (disabled_record_noop mD _ rfl).2.2 ErrorType.invalidExtraKey Option.none⟩

/-- C9: reading twice with no intervening record or collection returns
equal sequences — the read is non-destructive (the threaded state is
returned unchanged) and hence idempotent. -/
theorem test_get_value_idempotent (m : EventMetricType)
    (ping : Option String) :
    ((m.testGetValueS ping).2.testGetValueS ping).1 = (m.testGetValueS ping).1
    ∧ (m.testGetValueS ping).2 = m :=
  ⟨rfl, rfl⟩

/-- C10: an `extra` argument that is neither a dict nor an `EventExtras`
instance (a string, an integer, ...) falls into the `else` branch and is
treated exactly like absent extras: the empty mapping is forwarded to the
inner record call, no exception is raised and no validation fault is
emitted for the malformed argument. -/
theorem other_extra_like_absent (m : EventMetricType) (v : PyVal) :
    normalize_extra (ExtraArg.other v) = []
    ∧ m.record (ExtraArg.other v) = m.record ExtraArg.none
    ∧ m.recordE (ExtraArg.other v) = Except.ok (m.record ExtraArg.none)
    ∧ validateExtras m._inner.allowedExtraKeys
        (normalize_extra (ExtraArg.other v)) = ([], []) :=
  ⟨rfl, rfl, rfl, rfl⟩

/-- C2: `record(None)` then `test_get_value()` returns a present sequence
whose newly stored (last) event has extras equal to the empty mapping, and
no returned event ever has an absent extras field. -/
theorem record_none_empty_extras (m : EventMetricType) (p : String)
    (rest : List String)
    (hping : m._inner.cmd.sendInPings = p :: rest) (hnd : p ∉ rest)
    (hen : m._inner.cmd.disabled = false)
    (hcap : (m._inner.eventsFor p).length < MAX_EVENTS_PER_PING) :
    ((m.record ExtraArg.none).test_get_value Option.none).isSome = true
    ∧ (((m.record ExtraArg.none).test_get_value Option.none).getD
          []).getLast?
        = some ⟨m._inner.cmd.category, m._inner.cmd.name,
            (m._inner.eventsFor p).length, some []⟩
    ∧ ∀ ev ∈ ((m.record ExtraArg.none).test_get_value Option.none).getD [],
        ev.extra.isSome = true := by
  have hrp : (m.record ExtraArg.none)._inner.resolvePing Option.none = p := by
    rw [show (m.record ExtraArg.none)._inner
        = m._inner.record (normalize_extra ExtraArg.none) from rfl,
      record_resolvePing]
    unfold EventMetric.resolvePing
    rw [hping]
    rfl
  have hev : (m.record ExtraArg.none)._inner.eventsFor p
      = m._inner.eventsFor p
        ++ [⟨m._inner.cmd.category, m._inner.cmd.name,
            (m._inner.eventsFor p).length, none⟩] :=
    record_eventsFor_main m._inner [] p rest hping hnd hen hcap
  have hne : (m.record ExtraArg.none)._inner.eventsFor
      ((m.record ExtraArg.none)._inner.resolvePing Option.none) ≠ [] := by
    rw [hrp, hev]
    simp
  have hval := test_get_value_of_ne_nil (m.record ExtraArg.none)
    Option.none hne
  rw [hrp, hev, List.map_append] at hval
  refine ⟨?_, ?_, ?_⟩
  · rw [hval]
    rfl
  · rw [hval]
    simp only [Option.getD_some]
    rw [show List.map normalizeRead
        [(⟨m._inner.cmd.category, m._inner.cmd.name,
            (m._inner.eventsFor p).length, none⟩ : RecordedEvent)]
      = [⟨m._inner.cmd.category, m._inner.cmd.name,
          (m._inner.eventsFor p).length, some []⟩] from rfl]
    exact List.getLast?_concat _
  · rw [hval]
    intro ev hev'
    simp only [Option.getD_some] at hev'
    rcases List.mem_append.1 hev' with h1 | h1
    · obtain ⟨r, _, hr⟩ := List.mem_map.1 h1
      rw [← hr]
      exact normalizeRead_extra_isSome r
    · obtain ⟨r, _, hr⟩ := List.mem_map.1 h1
      rw [← hr]
      exact normalizeRead_extra_isSome r

/-- C2 witness: on the fresh concrete metric, `record(None)` then
`test_get_value()` yields a present sequence whose last event carries the
empty extras mapping. -/
theorem record_none_empty_extras_witness :
    ((mW.record ExtraArg.none).test_get_value Option.none).isSome = true
    ∧ (((mW.record ExtraArg.none).test_get_value Option.none).getD
          []).getLast? = some ⟨"cat", "click", 0, some []⟩ :=
  ⟨(record_none_empty_extras mW "events" [] rfl (by simp) rfl (by decide)).1,
   (record_none_empty_extras mW "events" [] rfl (by simp) rfl
      (by decide)).2.1⟩

lemma dictInsert_fst_mem (acc : List (PyVal × String)) (k : PyVal)
    (v : String) (x : PyVal)
    (hx : x ∈ (dictInsert acc k v).map Prod.fst) :
    x = k ∨ x ∈ acc.map Prod.fst := by
  unfold dictInsert at hx
  split at hx
  · obtain ⟨y, hy, hyx⟩ := List.mem_map.1 hx
    obtain ⟨q, hq, hqy⟩ := List.mem_map.1 hy
    by_cases hqk : q.1 = k
    · left
      rw [← hyx, ← hqy]
      simp [hqk]
    · right
      rw [← hyx, ← hqy]
      simp only [if_neg hqk]
      exact List.mem_map_of_mem Prod.fst hq
  · rw [List.map_append] at hx
    rcases List.mem_append.1 hx with h1 | h1
    · exact Or.inr h1
    · left
      simpa using h1

lemma key_to_str_dict_fst (pairs : List (PyKey × String)) :
    ∀ (acc : List (PyVal × String)) (x : PyVal),
      x ∈ ((pairs.foldl
          (fun acc p => dictInsert acc (key_to_str p.1) p.2) acc).map
          Prod.fst) →
      x ∈ acc.map Prod.fst ∨ ∃ q ∈ pairs, x = key_to_str q.1 := by
  induction pairs with
  | nil => intro acc x hx; exact Or.inl hx
  | cons q tl ih =>
    intro acc x hx
    rw [List.foldl_cons] at hx
    rcases ih _ x hx with h1 | h1
    · rcases dictInsert_fst_mem acc (key_to_str q.1) q.2 x h1 with h2 | h2
      · exact Or.inr ⟨q, List.mem_cons_self _ _, h2⟩
      · exact Or.inl h2
    · obtain ⟨q', hq', he⟩ := h1
      exact Or.inr ⟨q', List.mem_cons_of_mem _ hq', he⟩

/-- C3 as stated fails on the code: `key_to_str` forwards an enum key's
declared `.value` as-is, and that value need not be a string (here the
declared value is the integer `7`), so not every key forwarded onward is a
string. -/
theorem forwarded_key_not_string :
    ¬ ∀ (pairs : List (PyKey × String)),
        ∀ kv ∈ normalize_extra (ExtraArg.dict pairs),
          ∃ s : String, kv.1 = PyVal.str s := by
  intro h
  obtain ⟨s, hs⟩ := h [(PyKey.enumKey (PyVal.int 7), "v")]
    (PyVal.int 7, "v") (by decide)
  cases hs

/-- C3 (amended): every key of an extras dict is coerced before being
forwarded — an enum key resolves to its declared value as-is (its declared
string value when the enum declares a string) and every other key falls
back to a generic string conversion — so every key forwarded onward is the
`key_to_str` image of a key of the dict (a string except for enum keys
declaring non-string values). -/
theorem key_coercion_amended :
    (∀ v, key_to_str (PyKey.enumKey v) = v)
    ∧ (∀ s, key_to_str (PyKey.strKey s) = PyVal.str s)
    ∧ (∀ r, key_to_str (PyKey.otherKey r) = PyVal.str r)
    ∧ ∀ (pairs : List (PyKey × String)),
        ∀ kv ∈ normalize_extra (ExtraArg.dict pairs),
          ∃ q ∈ pairs, kv.1 = key_to_str q.1 := by
  refine ⟨fun _ => rfl, fun _ => rfl, fun _ => rfl, ?_⟩
  intro pairs kv hkv
  have hx : kv.1 ∈ (normalize_extra (ExtraArg.dict pairs)).map Prod.fst :=
    List.mem_map_of_mem Prod.fst hkv
  rcases key_to_str_dict_fst pairs [] kv.1 hx with h1 | h1
  · simp at h1
  · exact h1

/-- Concrete dict with an integer-valued enum key, for the C3 witness. -/
def pairsW : List (PyKey × String) := [(PyKey.enumKey (PyVal.int 7), "v")]

/-- C3 (amended) witness: the forwarded key of the concrete dict is the
`key_to_str` image of its enum key, namely the declared integer value. -/
theorem key_coercion_amended_witness :
    (∃ q ∈ pairsW, (PyVal.int 7 : PyVal) = key_to_str q.1)
    ∧ key_to_str (PyKey.enumKey (PyVal.int 7)) = PyVal.int 7 :=
  ⟨key_coercion_amended.2.2.2 pairsW (PyVal.int 7, "v") (by decide),
   key_coercion_amended.1 (PyVal.int 7)⟩

/-- C5: a pair of the forwarded extras whose coerced key is not in the
metric's allow-list is dropped from the stored event's extras, and the
`invalidExtraKey` counter grows by exactly one per such key. -/
theorem invalid_keys_dropped (m : EventMetricType) (extra : ExtraArg)
    (p : String) (rest : List String)
    (hping : m._inner.cmd.sendInPings = p :: rest) (hnd : p ∉ rest)
    (hen : m._inner.cmd.disabled = false)
    (hcap : (m._inner.eventsFor p).length < MAX_EVENTS_PER_PING) :
    (∀ kv ∈ normalize_extra extra,
       pyValToString kv.1 ∉ m._inner.allowedExtraKeys →
       ∀ l, ((m.record extra)._inner.eventsFor p).getLast? = some l →
         ∀ s, l.extra = some s → pyValToString kv.1 ∉ s.map Prod.fst)
    ∧ (m.record extra).test_get_num_recorded_errors
          ErrorType.invalidExtraKey Option.none
        = m.test_get_num_recorded_errors ErrorType.invalidExtraKey
            Option.none
          + ((normalize_extra extra).filter
              (fun kv => decide
                (pyValToString kv.1 ∉ m._inner.allowedExtraKeys))).length := by
  have hrp : m._inner.resolvePing Option.none = p := by
    unfold EventMetric.resolvePing
    rw [hping]
    rfl
  have hrp' : (m.record extra)._inner.resolvePing Option.none = p := by
    rw [show (m.record extra)._inner
        = m._inner.record (normalize_extra extra) from rfl,
      record_resolvePing, hrp]
  constructor
  · intro kv hkv hnotin l hl s hs hmem
    rw [show (m.record extra)._inner
        = m._inner.record (normalize_extra extra) from rfl,
      record_eventsFor_main m._inner (normalize_extra extra) p rest
        hping hnd hen hcap, List.getLast?_concat] at hl
    have hl' := Option.some.inj hl
    rw [← hl'] at hs
    have hs' : extraOptOf
        (validateExtras m._inner.allowedExtraKeys
          (normalize_extra extra)).1 = some s := hs
    unfold extraOptOf at hs'
    by_cases hemp : ((validateExtras m._inner.allowedExtraKeys
        (normalize_extra extra)).1).isEmpty = true
    · rw [if_pos hemp] at hs'
      cases hs'
    · rw [if_neg hemp] at hs'
      have hseq := Option.some.inj hs'
      obtain ⟨kv', hkv', hfst⟩ := List.mem_map.1 hmem
      rw [← hseq] at hkv'
      exact hnotin
        (hfst ▸ sanitizeExtras_keys m._inner.allowedExtraKeys _ kv' hkv')
  · unfold EventMetricType.test_get_num_recorded_errors
      EventMetric.test_get_num_recorded_errors
    rw [hrp', hrp]
    rw [show (m.record extra)._inner
        = m._inner.record (normalize_extra extra) from rfl]
    rw [record_errorCountFor_main m._inner (normalize_extra extra) p rest
      hping hnd hen hcap ErrorType.invalidExtraKey]
    exact congrArg
      (fun n => m._inner.errorCountFor p ErrorType.invalidExtraKey + n)
      (extrasFaults_count_key m._inner.allowedExtraKeys
        (normalize_extra extra))

/-- C5 witness: the concrete metric with allow-list `["reason"]` receives a
dict with the invalid key `"bogus"`; the `invalidExtraKey` counter grows by
exactly one. -/
theorem invalid_keys_dropped_witness :
    (mW.record (ExtraArg.dict [(PyKey.strKey "bogus", "y"),
        (PyKey.strKey "reason", "ok")])).test_get_num_recorded_errors
        ErrorType.invalidExtraKey Option.none
      = mW.test_get_num_recorded_errors ErrorType.invalidExtraKey Option.none
        + ((normalize_extra (ExtraArg.dict [(PyKey.strKey "bogus", "y"),
              (PyKey.strKey "reason", "ok")])).filter
            (fun kv => decide
              (pyValToString kv.1 ∉ mW._inner.allowedExtraKeys))).length :=
  (invalid_keys_dropped mW
    (ExtraArg.dict [(PyKey.strKey "bogus", "y"), (PyKey.strKey "reason", "ok")])
    "events" [] rfl (by simp) rfl (by decide)).2

/-- C6: a forwarded pair with an allowed key and a value longer than the
configured maximum is kept with the value truncated to the maximum, the
event is still stored (the store grows by one), and the `invalidOverflow`
counter grows by exactly one per such value. -/
theorem long_values_truncated (m : EventMetricType) (extra : ExtraArg)
    (p : String) (rest : List String)
    (hping : m._inner.cmd.sendInPings = p :: rest) (hnd : p ∉ rest)
    (hen : m._inner.cmd.disabled = false)
    (hcap : (m._inner.eventsFor p).length < MAX_EVENTS_PER_PING) :
    ((m.record extra)._inner.eventsFor p).length
        = (m._inner.eventsFor p).length + 1
    ∧ (∀ kv ∈ normalize_extra extra,
        pyValToString kv.1 ∈ m._inner.allowedExtraKeys →
        MAX_EXTRA_VALUE_LENGTH < kv.2.length →
        ∀ l, ((m.record extra)._inner.eventsFor p).getLast? = some l →
          ∃ s, l.extra = some s
            ∧ (pyValToString kv.1, kv.2.take MAX_EXTRA_VALUE_LENGTH) ∈ s)
    ∧ (m.record extra).test_get_num_recorded_errors
          ErrorType.invalidOverflow Option.none
        = m.test_get_num_recorded_errors ErrorType.invalidOverflow
            Option.none
          + ((normalize_extra extra).filter
              (fun kv =>
                decide (pyValToString kv.1 ∈ m._inner.allowedExtraKeys)
                && decide (MAX_EXTRA_VALUE_LENGTH < kv.2.length))).length := by
  have hrp : m._inner.resolvePing Option.none = p := by
    unfold EventMetric.resolvePing
    rw [hping]
    rfl
  have hrp' : (m.record extra)._inner.resolvePing Option.none = p := by
    rw [show (m.record extra)._inner
        = m._inner.record (normalize_extra extra) from rfl,
      record_resolvePing, hrp]
  have hev := record_eventsFor_main m._inner (normalize_extra extra) p rest
    hping hnd hen hcap
  refine ⟨?_, ?_, ?_⟩
  · rw [show (m.record extra)._inner
        = m._inner.record (normalize_extra extra) from rfl,
      hev, List.length_append]
    rfl
  · intro kv hkv hin hlong l hl
    rw [show (m.record extra)._inner
        = m._inner.record (normalize_extra extra) from rfl,
      hev, List.getLast?_concat] at hl
    have hl' := Option.some.inj hl
    have hmem := sanitizeExtras_mem_long m._inner.allowedExtraKeys
      (normalize_extra extra) kv hkv hin hlong
    have hne : sanitizeExtras m._inner.allowedExtraKeys
        (normalize_extra extra) ≠ [] := List.ne_nil_of_mem hmem
    refine ⟨sanitizeExtras m._inner.allowedExtraKeys (normalize_extra extra),
      ?_, hmem⟩
    rw [← hl']
    show extraOptOf (sanitizeExtras m._inner.allowedExtraKeys
        (normalize_extra extra)) = _
    unfold extraOptOf
    rw [isEmpty_false_of_ne_nil hne]
    rfl
  · unfold EventMetricType.test_get_num_recorded_errors
      EventMetric.test_get_num_recorded_errors
    rw [hrp', hrp]
    rw [show (m.record extra)._inner
        = m._inner.record (normalize_extra extra) from rfl]
    rw [record_errorCountFor_main m._inner (normalize_extra extra) p rest
      hping hnd hen hcap ErrorType.invalidOverflow]
    exact congrArg
      (fun n => m._inner.errorCountFor p ErrorType.invalidOverflow + n)
      (extrasFaults_count_overflow m._inner.allowedExtraKeys
        (normalize_extra extra))

/-- A 150-character value, longer than the 100-character maximum. -/
def longValW : String := String.mk (List.replicate 150 'x')

/-- C6 witness: recording a 150-character value under the allowed key
`"reason"` still stores the event and bumps `invalidOverflow` by one. -/
theorem long_values_truncated_witness :
    ((mW.record (ExtraArg.dict [(PyKey.strKey "reason", longValW)]))._inner.eventsFor
        "events").length = (mW._inner.eventsFor "events").length + 1
    ∧ (mW.record (ExtraArg.dict
          [(PyKey.strKey "reason", longValW)])).test_get_num_recorded_errors
        ErrorType.invalidOverflow Option.none
      = mW.test_get_num_recorded_errors ErrorType.invalidOverflow Option.none
        + ((normalize_extra (ExtraArg.dict
              [(PyKey.strKey "reason", longValW)])).filter
            (fun kv => decide (pyValToString kv.1 ∈ mW._inner.allowedExtraKeys)
              && decide (MAX_EXTRA_VALUE_LENGTH < kv.2.length))).length :=
  ⟨(long_values_truncated mW (ExtraArg.dict [(PyKey.strKey "reason", longValW)])
      "events" [] rfl (by simp) rfl (by decide)).1,
   (long_values_truncated mW (ExtraArg.dict [(PyKey.strKey "reason", longValW)])
      "events" [] rfl (by simp) rfl (by decide)).2.2⟩

/-- The extras mapping a reader sees for an event recorded with argument
`x` on a metric with allow-list `allowed`: the sanitized extras, an empty
sanitization reading back as the empty mapping. -/
def readExtraOf (allowed : List String) (x : ExtraArg) :
    Option (List (String × String)) :=
  if (sanitizeExtras allowed (normalize_extra x)).isEmpty then some []
  else some (sanitizeExtras allowed (normalize_extra x))

lemma normalizeRead_extraOptOf (allowed : List String) (x : ExtraArg)
    (c n : String) (t : Nat) :
    normalizeRead ⟨c, n, t,
        extraOptOf (validateExtras allowed (normalize_extra x)).1⟩
      = ⟨c, n, t, readExtraOf allowed x⟩ := by
  show normalizeRead ⟨c, n, t,
      extraOptOf (sanitizeExtras allowed (normalize_extra x))⟩
    = ⟨c, n, t, readExtraOf allowed x⟩
  unfold extraOptOf readExtraOf
  by_cases h : (sanitizeExtras allowed (normalize_extra x)).isEmpty = true
  · rw [if_pos h, if_pos h]
    rfl
  · rw [if_neg h, if_neg h]
    rfl

lemma two_records_eventsFor (cmd : CommonMetricData) (keys : List String)
    (x1 x2 : ExtraArg) (p : String) (rest : List String)
    (hping : cmd.sendInPings = p :: rest) (hnd : p ∉ rest)
    (hen : cmd.disabled = false) :
    (((EventMetric.new cmd keys).record (normalize_extra x1)).record
        (normalize_extra x2)).eventsFor p
      = [⟨cmd.category, cmd.name, 0,
            extraOptOf (validateExtras keys (normalize_extra x1)).1⟩,
         ⟨cmd.category, cmd.name, 1,
            extraOptOf (validateExtras keys (normalize_extra x2)).1⟩] := by
  have hcap0 : ((EventMetric.new cmd keys).eventsFor p).length
      < MAX_EVENTS_PER_PING := by
    show (0 : Nat) < MAX_EVENTS_PER_PING
    decide
  have hev1 : ((EventMetric.new cmd keys).record
        (normalize_extra x1)).eventsFor p
      = [⟨cmd.category, cmd.name, 0,
          extraOptOf (validateExtras keys (normalize_extra x1)).1⟩] :=
    record_eventsFor_main (EventMetric.new cmd keys) (normalize_extra x1)
      p rest hping hnd hen hcap0
  have hping1 : ((EventMetric.new cmd keys).record
      (normalize_extra x1)).cmd.sendInPings = p :: rest := by
    rw [record_cmd]
    exact hping
  have hen1 : ((EventMetric.new cmd keys).record
      (normalize_extra x1)).cmd.disabled = false := by
    rw [record_cmd]
    exact hen
  have hcap1 : (((EventMetric.new cmd keys).record
      (normalize_extra x1)).eventsFor p).length < MAX_EVENTS_PER_PING := by
    rw [hev1]
    show (1 : Nat) < MAX_EVENTS_PER_PING
    decide
  have hev2 := record_eventsFor_main
    ((EventMetric.new cmd keys).record (normalize_extra x1))
    (normalize_extra x2) p rest hping1 hnd hen1 hcap1
  rw [hev1, record_cmd, record_allowed] at hev2
  rw [hev2]
  rfl

/-- C7: recording two events in sequence on the same (fresh) metric and
ping makes `test_get_value()` return exactly those two events in recording
order — the first carrying the first call's read extras, the second the
second call's — with non-decreasing timestamps. -/
theorem two_records_ordered (cmd : CommonMetricData) (keys : List String)
    (x1 x2 : ExtraArg) (p : String) (rest : List String)
    (hping : cmd.sendInPings = p :: rest) (hnd : p ∉ rest)
    (hen : cmd.disabled = false) :
    ∃ e1 e2 : RecordedEvent,
      (((EventMetricType.init cmd keys).record x1).record x2).test_get_value
          Option.none = some [e1, e2]
      ∧ e1.timestamp ≤ e2.timestamp
      ∧ e1.extra = readExtraOf keys x1
      ∧ e2.extra = readExtraOf keys x2 := by
  have hinner : (((EventMetricType.init cmd keys).record x1).record x2)._inner
      = ((EventMetric.new cmd keys).record (normalize_extra x1)).record
          (normalize_extra x2) := rfl
  have hev2 := two_records_eventsFor cmd keys x1 x2 p rest hping hnd hen
  have hrp : (((EventMetricType.init cmd keys).record x1).record
      x2)._inner.resolvePing Option.none = p := by
    rw [hinner, record_resolvePing, record_resolvePing]
    show cmd.sendInPings.headD "" = p
    rw [hping]
    rfl
  have hne : (((EventMetricType.init cmd keys).record x1).record
      x2)._inner.eventsFor
        ((((EventMetricType.init cmd keys).record x1).record
            x2)._inner.resolvePing Option.none) ≠ [] := by
    rw [hrp, hinner, hev2]
    simp
  have hval := test_get_value_of_ne_nil
    (((EventMetricType.init cmd keys).record x1).record x2) Option.none hne
  rw [hrp, hinner, hev2] at hval
  refine ⟨⟨cmd.category, cmd.name, 0, readExtraOf keys x1⟩,
    ⟨cmd.category, cmd.name, 1, readExtraOf keys x2⟩, ?_, ?_, rfl, rfl⟩
  · rw [hval]
    rw [show List.map normalizeRead
        [(⟨cmd.category, cmd.name, 0,
            extraOptOf (validateExtras keys (normalize_extra x1)).1⟩ :
          RecordedEvent),
         ⟨cmd.category, cmd.name, 1,
            extraOptOf (validateExtras keys (normalize_extra x2)).1⟩]
      = [normalizeRead ⟨cmd.category, cmd.name, 0,
            extraOptOf (validateExtras keys (normalize_extra x1)).1⟩,
         normalizeRead ⟨cmd.category, cmd.name, 1,
            extraOptOf (validateExtras keys (normalize_extra x2)).1⟩]
      from rfl]
    rw [normalizeRead_extraOptOf, normalizeRead_extraOptOf]
  · show (0 : Nat) ≤ 1
    decide

/-- C7 witness: two concrete records on a fresh metric come back in order
with non-decreasing timestamps. -/
theorem two_records_ordered_witness :
    ∃ e1 e2 : RecordedEvent,
      (((EventMetricType.init cmdW ["reason"]).record ExtraArg.none).record
          (ExtraArg.dict [(PyKey.strKey "reason", "ok")])).test_get_value
          Option.none = some [e1, e2]
      ∧ e1.timestamp ≤ e2.timestamp
      ∧ e1.extra = readExtraOf ["reason"] ExtraArg.none
      ∧ e2.extra = readExtraOf ["reason"]
          (ExtraArg.dict [(PyKey.strKey "reason", "ok")]) :=
  two_records_ordered cmdW ["reason"] ExtraArg.none
    (ExtraArg.dict [(PyKey.strKey "reason", "ok")]) "events" [] rfl
    (by simp) rfl
